import Mathlib

/-!
Verification development for the identity-assertion core of hasura-backend-plus
(`src/shared/jwt.ts`): signing-key initialization, permission-claims building,
token issuance/verification modelling, claim extraction, and JWKS publication.

JavaScript objects are modelled as association lists in insertion order
(`List (String × α)`); property assignment (`obj[k] = v`) replaces the value at
an existing key in place and otherwise appends, exactly as in JS. The external
`jose` library (JWT.sign / JWT.verify) is modelled at its interface boundary by
a token structure carrying its payload, the signing key, and the standard
temporal claims. The external `lodash.kebabcase` helper is modelled for
camelCase / lower-case identifiers; no theorem depends on its internals.
-/

namespace HBP

/-! ## JavaScript object model -/

/-- JS property assignment `obj[k] = v`: replace the value at the first
occurrence of the key in place, else append the pair at the end. On lists with
unique keys (every object built by the code) this is exactly JS semantics. -/
def jsObjInsert {α : Type} : List (String × α) → String → α → List (String × α)
  | [], k, v => [(k, v)]
  | kv :: rest, k, v =>
    if kv.1 = k then (k, v) :: rest else kv :: jsObjInsert rest k v

/-- JS property read `obj[k]`: the value at the first occurrence of the key. -/
def jsLookup {α : Type} : List (String × α) → String → Option α
  | [], _ => none
  | kv :: rest, k => if kv.1 = k then some kv.2 else jsLookup rest k

/-- JS object spread `\x7b ...m, ...l \x7d`: assign each entry of `l` into `m`
in order. Also models a `reduce` that assigns one key per step. -/
def jsSpread {α : Type} (m l : List (String × α)) : List (String × α) :=
  l.foldl (fun acc kv => jsObjInsert acc kv.1 kv.2) m

/-- Rename every key of an association list. -/
def mapKeys {α : Type} (f : String → String) (m : List (String × α)) :
    List (String × α) :=
  m.map (fun kv => (f kv.1, kv.2))

/-- The keys of the association list are pairwise distinct (true of every JS
object). -/
def NodupKeys {α : Type} (m : List (String × α)) : Prop :=
  (m.map Prod.fst).Nodup

/-- First of two optional values, the second a fallback. -/
def fallback {α : Type} : Option α → Option α → Option α
  | some v, _ => some v
  | none, b => b

/-- Value carried by the last entry of the list holding the given key. This is
the value a left-to-right sequence of JS assignments leaves at that key. -/
def lastVal {α : Type} : List (String × α) → String → Option α
  | [], _ => none
  | kv :: rest, k =>
    fallback (lastVal rest k) (if kv.1 = k then some kv.2 else none)

/-! ## JS `String.prototype.replace` with a string pattern -/

/-- Core of JS `s.replace(pat, '')`: delete the first (leftmost) occurrence of
`pat`, wherever it appears; a string without an occurrence is unchanged. -/
def replaceFirstAux (pat : List Char) : List Char → List Char
  | [] => []
  | c :: cs =>
    if pat.isPrefixOf (c :: cs) then (c :: cs).drop pat.length
    else c :: replaceFirstAux pat cs

/-- JS `s.replace(pat, '')` for a plain string pattern: removes only the first
occurrence of `pat` from `s`. -/
def jsReplaceOnce (s pat : String) : String :=
  String.mk (replaceFirstAux pat.data s.data)

/-- Specification of first-occurrence removal: a string with no occurrence of
the pattern is unchanged, and on `pre ++ pat ++ suf` where no occurrence starts
earlier than `pre.length` the output is `pre ++ suf`. -/
def RemovesFirstOccurrence (pat s out : String) : Prop :=
  ((∀ pre suf : List Char, s.data ≠ pre ++ pat.data ++ suf) → out = s) ∧
  (∀ pre suf : List Char, s.data = pre ++ pat.data ++ suf →
    (∀ p2 s2 : List Char, s.data = p2 ++ pat.data ++ s2 →
      pre.length ≤ p2.length) →
    out.data = pre ++ suf)

/-! ## Model of external collaborators -/

/-- Model of the external `lodash.kebabcase` collaborator, adequate for
camelCase and already-kebab-cased identifiers (`firstName ↦ first-name`).
No claim depends on its internals. -/
def kebabCase (s : String) : String :=
  String.mk (s.data.foldr
    (fun c acc => (if c.isUpper then ['-', c.toLower] else [c]) ++ acc) [])

/-! ## Configuration (`src/shared/config`, consumed not owned) -/

/-- `CONFIG_JWT` configuration object. `KEY = ""` models an unset `JWT_KEY`
environment variable (JS falsy). -/
structure JwtConfig where
  ALGORITHM : String
  KEY : String
  KEY_FILE_PATH : String
  EXPIRES_IN : Nat
  CLAIMS_NAMESPACE : String
  CUSTOM_FIELDS : List String
deriving DecidableEq

/-- `REGISTRATION` configuration object (the two role constants used here). -/
structure RegistrationConfig where
  DEFAULT_ANONYMOUS_ROLE : String
  DEFAULT_USER_ROLE : String
deriving DecidableEq

/-- `RSA_TYPES` from jwt.ts line 8. -/
def RSA_TYPES : List String := ["RS256", "RS384", "RS512"]

/-- `SHA_TYPES` from jwt.ts line 9. -/
def SHA_TYPES : List String := ["HS256", "HS384", "HS512"]

/-! ## Account data (`src/shared/types`) -/

/-- A value stored in a custom column of the user record. `other` carries the
`JSON.stringify` text of any non-string, non-array value (numbers, booleans,
objects, `null` as "null"). An absent column is `Option.none`. -/
inductive UserValue where
  | str (s : String)
  | arr (xs : List String)
  | other (jsonText : String)
deriving DecidableEq

/-- The `user` record of an `AccountData`. Custom columns are read through
`fields`. -/
structure UserData where
  id : String
  is_anonymous : Bool
  fields : String → Option UserValue

/-- An entry of `account_roles` (`\x7b role: string \x7d`). -/
structure AccountRole where
  role : String
deriving DecidableEq

/-- `AccountData`: `default_role = none` models an undefined optional field;
an absent `account_roles` is modelled by the empty list (the destructuring
default `account_roles = []` in jwt.ts line 62). -/
structure AccountData where
  user : UserData
  default_role : Option String
  account_roles : List AccountRole

/-! ## Claims and token payloads -/

/-- A claim value (`ClaimValueType`): a string, an array of strings, or a
JSON scalar. -/
inductive ClaimValue where
  | str (s : String)
  | strArr (xs : List String)
  | num (n : Int)
  | bool (b : Bool)
  | null
deriving DecidableEq

/-- The `Claims` mapping nested under the claims namespace. -/
abbrev Claims := List (String × ClaimValue)

/-- `PermissionVariables`: claims with the `x-hasura-` prefix stripped. -/
abbrev PermissionVariables := Claims

/-- A value of the top-level token payload: the nested claims object, or a
standard scalar claim (subject/issuer strings, iat/exp numbers). -/
inductive PayloadValue where
  | obj (c : Claims)
  | str (s : String)
  | num (n : Nat)
deriving DecidableEq

/-- A decoded token payload. -/
abbrev Payload := List (String × PayloadValue)

/-- JS truthiness of a payload value (used by the
`!decodedToken[CLAIMS_NAMESPACE]` check: objects are truthy, `""` and `0` are
falsy). -/
def jsTruthyPayload : PayloadValue → Bool
  | .obj _ => true
  | .str s => s != ""
  | .num n => n != 0

/-! ## Signing key and key initialization (jwt.ts lines 11–42) -/

/-- The process-wide `jwtKey`: a symmetric secret string or an RSA key pair,
the latter identified abstractly by a numeric id. -/
inductive JwtKeyVal where
  | secret (s : String)
  | rsa (keyId : Nat)
deriving DecidableEq

/-- Error raised during module initialization: a configuration error carrying
the thrown message, or a file-system exception escaping `fs.writeFileSync`. -/
inductive InitError where
  | config (msg : String)
  | fsWriteError
deriving DecidableEq

/-- Outcomes of the external calls made during key initialization:
whether `JWK.asKey(KEY)`/`toPEM` succeeds on the configured key material,
whether `fs.readFileSync` + `JWK.asKey` succeed on the key file, the abstract
identities of the parsed/read/generated keys, and whether `fs.writeFileSync`
succeeds. -/
structure KeyInitEnv where
  parseEnvKeyOk : Bool
  envKeyId : Nat
  fileReadOk : Bool
  fileKeyId : Nat
  generatedKeyId : Nat
  writeOk : Bool
deriving DecidableEq

/-- Module-level initialization of `jwtKey` (jwt.ts lines 11–42). In the RSA
branch with no configured key material, a failed file read triggers
`JWK.generateSync` followed by an unguarded `fs.writeFileSync`; a write failure
therefore escapes the `catch` block and aborts initialization. -/
def initJwtKey (cfg : JwtConfig) (env : KeyInitEnv) :
    Except InitError JwtKeyVal :=
  if RSA_TYPES.contains cfg.ALGORITHM then
    if cfg.KEY ≠ "" then
      if env.parseEnvKeyOk then .ok (.rsa env.envKeyId)
      else .error (.config
        "Invalid RSA private key in the JWT_KEY environment variable.")
    else if env.fileReadOk then .ok (.rsa env.fileKeyId)
    else if env.writeOk then .ok (.rsa env.generatedKeyId)
    else .error .fsWriteError
  else if SHA_TYPES.contains cfg.ALGORITHM then
    if cfg.KEY = "" then .error (.config "Empty JWT secret key.")
    else .ok (.secret cfg.KEY)
  else .error (.config ("Invalid JWT algorithm: " ++ cfg.ALGORITHM))

/-! ## Claims building (jwt.ts lines 50–97) -/

/-- `toPgArray` (jwt.ts lines 50–53): brace-delimited, comma-separated literal
with each element double-quoted. -/
def toPgArray (arr : List String) : String :=
  let m := String.intercalate "," (arr.map (fun e => "\"" ++ e ++ "\""))
  "\x7b" ++ m ++ "\x7d"

/-- The effective role (jwt.ts lines 66–68): the anonymous-role constant for
anonymous users; otherwise `default_role || DEFAULT_USER_ROLE`, where JS `||`
treats the empty string as falsy. -/
def effectiveRole (reg : RegistrationConfig) (a : AccountData) : String :=
  if a.user.is_anonymous then reg.DEFAULT_ANONYMOUS_ROLE
  else
    match a.default_role with
    | none => reg.DEFAULT_USER_ROLE
    | some r => if r = "" then reg.DEFAULT_USER_ROLE else r

/-- The allowed-roles list (jwt.ts lines 69–73): `account_roles`'s role names
in order, with the effective role pushed at the end when not already
included. -/
def allowedRoles (reg : RegistrationConfig) (a : AccountData) : List String :=
  if (a.account_roles.map AccountRole.role).contains (effectiveRole reg a)
  then a.account_roles.map AccountRole.role
  else a.account_roles.map AccountRole.role ++ [effectiveRole reg a]

/-- Encoding of one custom field value (jwt.ts lines 81–90): strings verbatim,
arrays through `toPgArray`, anything else through `JSON.stringify(v ?? null)`
(an absent column becomes the JSON text "null"). -/
def customFieldValue (u : UserData) (cursor : String) : ClaimValue :=
  match u.fields cursor with
  | some (.str s) => .str s
  | some (.arr xs) => .str (toPgArray xs)
  | some (.other j) => .str j
  | none => .str "null"

/-- Key decoration of the claims builder (jwt.ts line 65): the literal
`x-hasura-` when building claims for a token, empty otherwise. -/
def gpPre (jwt : Bool) : String := if jwt then "x-hasura-" else ""

/-- `generatePermissionVariables` (jwt.ts lines 61–97): the base object with
`user-id` / `allowed-roles` / `default-role`, spread with the reduce over
`CUSTOM_FIELDS` that assigns one kebab-cased key per configured field; every
key starts with `gpPre jwt`. -/
def generatePermissionVariables (cfg : JwtConfig) (reg : RegistrationConfig)
    (a : AccountData) (jwt : Bool) : Claims :=
  jsSpread
    [(gpPre jwt ++ "user-id", ClaimValue.str a.user.id),
     (gpPre jwt ++ "allowed-roles", ClaimValue.strArr (allowedRoles reg a)),
     (gpPre jwt ++ "default-role", ClaimValue.str (effectiveRole reg a))]
    (cfg.CUSTOM_FIELDS.foldl
      (fun aggr cursor =>
        jsObjInsert aggr (gpPre jwt ++ kebabCase cursor)
          (customFieldValue a.user cursor))
      [])

/-! ## Token signing and verification (model of `jose` at its boundary) -/

/-- A signed token: its payload, the key that signed it, and the standard
claims `JWT.sign` adds (`iat`, computed `exp`, `sub`, `iss`). -/
structure SignedToken where
  payload : Payload
  sigKey : JwtKeyVal
  iat : Nat
  exp : Nat
  sub : String
  iss : String
deriving DecidableEq

/-- Model of `JWT.sign(payload, key, \x7balgorithm, expiresIn, subject,
issuer\x7d)`: expiry is `now` plus the configured number of minutes, in
seconds. -/
def jwtSign (payload : Payload) (key : JwtKeyVal) (expiresInMin now : Nat)
    (subject : String) : SignedToken :=
  ⟨payload, key, now, now + expiresInMin * 60, subject, "nhost"⟩

/-- The decoded payload `JWT.verify` returns: the signed payload together with
the standard claims. -/
def decodedPayload (t : SignedToken) : Payload :=
  jsObjInsert
    (jsObjInsert
      (jsObjInsert (jsObjInsert t.payload "iat" (.num t.iat))
        "exp" (.num t.exp))
      "sub" (.str t.sub))
    "iss" (.str t.iss)

/-- Model of `JWT.verify(token, key)` at time `now`: succeeds exactly when the
token was signed with the same key and has not expired, returning the decoded
payload; otherwise it throws (`none`). -/
def jwtVerify (t : SignedToken) (key : JwtKeyVal) (now : Nat) :
    Option Payload :=
  if t.sigKey = key ∧ now < t.exp then some (decodedPayload t) else none

/-- `sign` (jwt.ts lines 115–121). -/
def sign (cfg : JwtConfig) (key : JwtKeyVal) (now : Nat) (payload : Payload)
    (accountData : AccountData) : SignedToken :=
  jwtSign payload key cfg.EXPIRES_IN now accountData.user.id

/-- `createHasuraJwt` (jwt.ts lines 152–158): the token-shaped permission
variables wrapped under the configured claims namespace, then signed. -/
def createHasuraJwt (cfg : JwtConfig) (reg : RegistrationConfig)
    (key : JwtKeyVal) (now : Nat) (a : AccountData) : SignedToken :=
  sign cfg key now
    [(cfg.CLAIMS_NAMESPACE,
      PayloadValue.obj (generatePermissionVariables cfg reg a true))] a

/-! ## Claim extraction (jwt.ts lines 127–147) -/

/-- The authentication errors of `getClaims`. `missingNamespace` is the
`'Claims namespace not found.'` error constructed inside the try block. -/
inductive JwtError where
  | missingHeader
  | invalidToken
  | missingNamespace
deriving DecidableEq

/-- The body of the `try` block of `getClaims` (jwt.ts lines 131–133), on an
already-extracted token. `none` stands for a token string the external library
cannot even parse (`JWT.verify` throws on it, modelled as a verification
failure). A payload value at the namespace key that is JS-falsy fails the
`!decodedToken[...]` check exactly like an absent one. -/
def getClaimsTry (cfg : JwtConfig) (key : JwtKeyVal) (now : Nat)
    (tok : Option SignedToken) : Except JwtError PayloadValue :=
  match tok with
  | none => .error .invalidToken
  | some t =>
    match jwtVerify t key now with
    | none => .error .invalidToken
    | some payload =>
      match jsLookup payload cfg.CLAIMS_NAMESPACE with
      | none => .error .missingNamespace
      | some v => if jsTruthyPayload v then .ok v else .error .missingNamespace

/-- The `try`/`catch` of `getClaims` (jwt.ts lines 130–136): every error
raised inside the try block — including the `'Claims namespace not found.'`
one — is replaced by the `'Invalid or expired JWT token.'` error. -/
def verifyAndExtract (cfg : JwtConfig) (key : JwtKeyVal) (now : Nat)
    (tok : Option SignedToken) : Except JwtError PayloadValue :=
  match getClaimsTry cfg key now tok with
  | .ok v => .ok v
  | .error _ => .error .invalidToken

/-- `getClaims` (jwt.ts lines 127–137). `decodeToken` models the external
compact-serialization parser: the `SignedToken` a token string stands for, if
any. An absent header — and an empty one, equally falsy in JS — fails with
the missing-header error before the try block; the token is the header with
the first occurrence of `"Bearer "` removed. -/
def getClaims (cfg : JwtConfig) (key : JwtKeyVal) (now : Nat)
    (decodeToken : String → Option SignedToken) (authorization : Option String) :
    Except JwtError PayloadValue :=
  match authorization with
  | none => .error .missingHeader
  | some h =>
    if h = "" then .error .missingHeader
    else verifyAndExtract cfg key now (decodeToken (jsReplaceOnce h "Bearer "))

/-- `getPermissionVariablesFromClaims` (jwt.ts lines 139–147): rebuild the
object with `'x-hasura-'` removed (first occurrence only) from every key. -/
def getPermissionVariablesFromClaims (claims : Claims) : PermissionVariables :=
  claims.foldl
    (fun acc kv => jsObjInsert acc (jsReplaceOnce kv.1 "x-hasura-") kv.2) []

/-! ## JWKS publication (jwt.ts lines 103–110) -/

/-- `getJwkStore` (jwt.ts lines 103–110): for an RSA algorithm, a key store
holding exactly the active key; otherwise the
`'JWKS is not implemented on this server.'` error. -/
def getJwkStore (cfg : JwtConfig) (jwtKey : JwtKeyVal) :
    Except String (List JwtKeyVal) :=
  if RSA_TYPES.contains cfg.ALGORITHM then .ok [jwtKey]
  else .error "JWKS is not implemented on this server."

/-! ## Concrete sample data used by witnesses and counterexamples -/

deriving instance DecidableEq for Except

/-- Sample asymmetric configuration. -/
def cfgA : JwtConfig :=
  ⟨"RS256", "", "custom/keys/private.pem", 15, "https://hasura.io/jwt/claims",
   ["firstName", "colors"]⟩

/-- Sample symmetric configuration. -/
def cfgHS : JwtConfig :=
  ⟨"HS256", "top-secret", "custom/keys/private.pem", 15,
   "https://hasura.io/jwt/claims", []⟩

/-- Sample registration constants. -/
def regA : RegistrationConfig := ⟨"anonymous", "user"⟩

/-- Sample user record with two custom columns. -/
def userA : UserData :=
  ⟨"u1", false, fun f =>
    if f = "colors" then some (.arr ["a", "b"])
    else if f = "firstName" then some (.str "Ann") else none⟩

/-- Sample account. -/
def accountA : AccountData := ⟨userA, some "user", [⟨"user"⟩, ⟨"editor"⟩]⟩

/-- Account whose `account_roles` lists the effective role twice. -/
def accountDup : AccountData := ⟨userA, some "user", [⟨"user"⟩, ⟨"user"⟩]⟩

/-- Non-anonymous account whose `default_role` is present but empty. -/
def accountEmptyRole : AccountData := ⟨userA, some "", [⟨"editor"⟩]⟩

/-- Anonymous account with a `default_role` set. -/
def accountAnon : AccountData :=
  ⟨⟨"u2", true, fun _ => none⟩, some "ignored", [⟨"editor"⟩]⟩

/-- Sample active RSA key. -/
def keyA : JwtKeyVal := .rsa 7

/-- A well-signed token (key `keyA`, expiry 900) whose payload lacks the
claims-namespace key. -/
def tokenNoNamespace : SignedToken :=
  ⟨[("some-other-claim", .str "x")], keyA, 0, 900, "u1", "nhost"⟩

/-- Token-string decoder recognizing exactly the string "token-a". -/
def decodeA : String → Option SignedToken :=
  fun s => if s = "token-a" then some tokenNoNamespace else none

/-- RSA configuration with no key material, for the key-generation branch. -/
def cfgGen : JwtConfig := ⟨"RS256", "", "custom/keys/private.pem", 15, "ns", []⟩

/-- Initialization environment: file read fails and the persist step fails. -/
def envNoWrite : KeyInitEnv := ⟨true, 1, false, 2, 3, false⟩

/-- Initialization environment: file read fails, the persist step succeeds. -/
def envWrite : KeyInitEnv := ⟨true, 1, false, 2, 3, true⟩

/-! ## Lemmas: the JS object model -/

theorem fallback_some {α : Type} (v : α) (b : Option α) :
    fallback (some v) b = some v := rfl

theorem fallback_none {α : Type} (b : Option α) : fallback none b = b := rfl

theorem jsLookup_insert_same {α : Type} (m : List (String × α)) (k : String)
    (v : α) : jsLookup (jsObjInsert m k v) k = some v := by
  induction m with
  | nil => simp [jsObjInsert, jsLookup]
  | cons kv rest ih =>
    by_cases h : kv.1 = k
    · simp [jsObjInsert, h, jsLookup]
    · simp [jsObjInsert, h, jsLookup, ih]

theorem jsLookup_insert_ne {α : Type} (m : List (String × α)) (k k' : String)
    (v : α) (h : k ≠ k') : jsLookup (jsObjInsert m k' v) k = jsLookup m k := by
  induction m with
  | nil => simp [jsObjInsert, jsLookup, Ne.symm h]
  | cons kv rest ih =>
    by_cases hk : kv.1 = k'
    · simp [jsObjInsert, hk, jsLookup, Ne.symm h]
    · by_cases hkk : kv.1 = k <;> simp [jsObjInsert, hk, jsLookup, hkk, ih, h]

theorem jsObjInsert_mapKeys {α : Type} (f : String → String)
    (hf : Function.Injective f) (m : List (String × α)) (k : String) (v : α) :
    jsObjInsert (mapKeys f m) (f k) v = mapKeys f (jsObjInsert m k v) := by
  induction m with
  | nil => simp [jsObjInsert, mapKeys]
  | cons kv rest ih =>
    by_cases h : kv.1 = k
    · simp [mapKeys, jsObjInsert, h]
    · have hne : f kv.1 ≠ f k := fun hc => h (hf hc)
      simp [mapKeys, jsObjInsert, h, hne] at ih ⊢
      exact ih

theorem jsSpread_mapKeys {α : Type} (f : String → String)
    (hf : Function.Injective f) (m l : List (String × α)) :
    jsSpread (mapKeys f m) (mapKeys f l) = mapKeys f (jsSpread m l) := by
  induction l generalizing m with
  | nil => simp [jsSpread, mapKeys]
  | cons kv rest ih =>
    show jsSpread (jsObjInsert (mapKeys f m) (f kv.1) kv.2) (mapKeys f rest) = _
    rw [jsObjInsert_mapKeys f hf]
    exact ih (jsObjInsert m kv.1 kv.2)

theorem jsObjInsert_of_not_mem {α : Type} (m : List (String × α)) (k : String)
    (v : α) (h : k ∉ m.map Prod.fst) : jsObjInsert m k v = m ++ [(k, v)] := by
  induction m with
  | nil => simp [jsObjInsert]
  | cons kv rest ih =>
    simp only [List.map_cons, List.mem_cons] at h
    push_neg at h
    simp [jsObjInsert, Ne.symm h.1, ih h.2]

theorem jsSpread_eq_append {α : Type} (m acc : List (String × α))
    (h : NodupKeys (acc ++ m)) : jsSpread acc m = acc ++ m := by
  induction m generalizing acc with
  | nil => simp [jsSpread]
  | cons kv rest ih =>
    have hnotin : kv.1 ∉ acc.map Prod.fst := by
      simp only [NodupKeys, List.map_append, List.nodup_append] at h
      intro hc
      exact h.2.2 hc (by simp)
    show jsSpread (jsObjInsert acc kv.1 kv.2) rest = _
    rw [jsObjInsert_of_not_mem acc kv.1 kv.2 hnotin]
    have : NodupKeys ((acc ++ [kv]) ++ rest) := by
      simpa [NodupKeys, List.append_assoc] using h
    rw [ih (acc ++ [kv]) this, List.append_assoc]
    simp

theorem keys_jsObjInsert {α : Type} (m : List (String × α)) (k : String)
    (v : α) :
    (jsObjInsert m k v).map Prod.fst =
      if k ∈ m.map Prod.fst then m.map Prod.fst
      else m.map Prod.fst ++ [k] := by
  induction m with
  | nil => simp [jsObjInsert]
  | cons kv rest ih =>
    by_cases hk : kv.1 = k
    · simp [jsObjInsert, hk]
    · have hne : k ≠ kv.1 := Ne.symm hk
      by_cases hm : k ∈ rest.map Prod.fst <;>
        simp [jsObjInsert, hk, hne, hm, ih]

theorem nodupKeys_jsObjInsert {α : Type} (m : List (String × α)) (k : String)
    (v : α) (h : NodupKeys m) : NodupKeys (jsObjInsert m k v) := by
  rw [NodupKeys, keys_jsObjInsert]
  by_cases hm : k ∈ m.map Prod.fst
  · simpa [hm] using h
  · simp only [hm, if_false]
    rw [List.nodup_append]
    refine ⟨h, List.nodup_singleton k, ?_⟩
    intro a ha hk2
    simp only [List.mem_singleton] at hk2
    subst hk2
    exact hm ha

theorem nodupKeys_jsSpread {α : Type} (m l : List (String × α))
    (h : NodupKeys m) : NodupKeys (jsSpread m l) := by
  induction l generalizing m with
  | nil => simpa [jsSpread] using h
  | cons kv rest ih =>
    exact ih (jsObjInsert m kv.1 kv.2) (nodupKeys_jsObjInsert m kv.1 kv.2 h)

theorem lastVal_eq_none {α : Type} (l : List (String × α)) (k : String)
    (h : ∀ kv ∈ l, kv.1 ≠ k) : lastVal l k = none := by
  induction l with
  | nil => rfl
  | cons kv rest ih =>
    have h1 : kv.1 ≠ k := h kv (by simp)
    have h2 := ih (fun kv' hm => h kv' (by simp [hm]))
    simp [lastVal, h1, h2, fallback]

theorem jsLookup_jsSpread {α : Type} (m l : List (String × α)) (k : String) :
    jsLookup (jsSpread m l) k = fallback (lastVal l k) (jsLookup m k) := by
  induction l generalizing m with
  | nil => simp [jsSpread, lastVal, fallback]
  | cons kv rest ih =>
    show jsLookup (jsSpread (jsObjInsert m kv.1 kv.2) rest) k = _
    rw [ih (jsObjInsert m kv.1 kv.2)]
    cases hl : lastVal rest k with
    | some v => simp [lastVal, hl, fallback]
    | none =>
      by_cases hk : kv.1 = k
      · subst hk
        simp [lastVal, hl, fallback, jsLookup_insert_same]
      · have : k ≠ kv.1 := Ne.symm hk
        simp [lastVal, hl, fallback, hk, jsLookup_insert_ne m k kv.1 kv.2 this]

theorem fallback_none_right {α : Type} (a : Option α) : fallback a none = a := by
  cases a <;> rfl

theorem lastVal_of_nodup {α : Type} (l : List (String × α)) (k : String)
    (h : NodupKeys l) : lastVal l k = jsLookup l k := by
  induction l with
  | nil => rfl
  | cons kv rest ih =>
    simp only [NodupKeys, List.map_cons, List.nodup_cons] at h
    by_cases hk : kv.1 = k
    · have hnone : ∀ kv' ∈ rest, kv'.1 ≠ k := by
        intro kv' hm hc
        apply h.1
        have hmm : kv'.1 ∈ List.map Prod.fst rest :=
          List.mem_map_of_mem Prod.fst hm
        rwa [hc, ← hk] at hmm
      simp [lastVal, lastVal_eq_none rest k hnone, fallback, hk, jsLookup]
    · simp [lastVal, hk, jsLookup, ih h.2, fallback_none_right]

theorem lastVal_const {α : Type} (l : List (String × α)) (k : String) (v : α)
    (hmem : ∃ kv ∈ l, kv.1 = k) (hall : ∀ kv ∈ l, kv.1 = k → kv.2 = v) :
    lastVal l k = some v := by
  induction l with
  | nil => simp at hmem
  | cons kv rest ih =>
    by_cases hrest : ∃ kv' ∈ rest, kv'.1 = k
    · have := ih hrest (fun kv' hm hk => hall kv' (by simp [hm]) hk)
      simp [lastVal, this, fallback]
    · push_neg at hrest
      have hk : kv.1 = k := by
        rcases hmem with ⟨kv', hm, hk'⟩
        rcases List.mem_cons.mp hm with h | h
        · rw [← h]; exact hk'
        · exact absurd hk' (hrest kv' h)
      have hv : kv.2 = v := hall kv (by simp) hk
      simp [lastVal, lastVal_eq_none rest k hrest, fallback, hk, hv]

/-- A left fold of single-key JS assignments is the spread of the computed
entry list. -/
theorem foldl_insert_eq_jsSpread {α β : Type} (l : List β) (key : β → String)
    (val : β → α) (start : List (String × α)) :
    l.foldl (fun aggr c => jsObjInsert aggr (key c) (val c)) start
      = jsSpread start (l.map (fun c => (key c, val c))) := by
  induction l generalizing start with
  | nil => simp [jsSpread]
  | cons c rest ih => simpa [jsSpread] using ih (jsObjInsert start (key c) (val c))

/-! ## Lemmas: strings and first-occurrence replacement -/

theorem string_append_left_cancel {p a b : String} (h : p ++ a = p ++ b) :
    a = b := by
  have hd := congrArg String.data h
  rw [String.data_append, String.data_append] at hd
  exact congrArg String.mk (List.append_cancel_left hd)

theorem prepend_injective (p : String) :
    Function.Injective (fun k : String => p ++ k) :=
  fun _ _ h => string_append_left_cancel h

theorem isPrefixOf_iff_exists (l₁ l₂ : List Char) :
    l₁.isPrefixOf l₂ = true ↔ ∃ t, l₁ ++ t = l₂ := by
  induction l₁ generalizing l₂ with
  | nil => simp [List.isPrefixOf]
  | cons c cs ih =>
    cases l₂ with
    | nil => simp [List.isPrefixOf]
    | cons d ds =>
      simp only [List.isPrefixOf, Bool.and_eq_true, beq_iff_eq, ih,
        List.cons_append]
      constructor
      · rintro ⟨hcd, t, ht⟩
        exact ⟨t, by rw [hcd, ht]⟩
      · rintro ⟨t, ht⟩
        injection ht with h1 h2
        exact ⟨h1, t, h2⟩

theorem replaceFirstAux_of_head (pat l : List Char) :
    replaceFirstAux pat (pat ++ l) = l := by
  cases pat with
  | nil =>
    cases l with
    | nil => rfl
    | cons c cs => simp [replaceFirstAux, List.isPrefixOf]
  | cons p ps =>
    have hpre : (p :: ps).isPrefixOf (p :: (ps ++ l)) = true := by
      rw [isPrefixOf_iff_exists]
      exact ⟨l, rfl⟩
    show replaceFirstAux (p :: ps) (p :: (ps ++ l)) = l
    simp only [replaceFirstAux, hpre, if_true]
    exact List.drop_left (p :: ps) l

theorem replaceFirstAux_no_occurrence (pat l : List Char)
    (h : ∀ pre suf : List Char, l ≠ pre ++ pat ++ suf) :
    replaceFirstAux pat l = l := by
  induction l with
  | nil => rfl
  | cons c cs ih =>
    have hnp : ¬ pat.isPrefixOf (c :: cs) = true := by
      rw [isPrefixOf_iff_exists]
      rintro ⟨t, ht⟩
      exact h [] t (by simpa using ht.symm)
    simp only [replaceFirstAux, if_neg hnp]
    congr 1
    apply ih
    intro pre suf hc
    exact h (c :: pre) suf (by simp [hc])

theorem replaceFirstAux_first_occurrence (pat pre suf : List Char)
    (hfirst : ∀ p2 s2 : List Char, pre ++ pat ++ suf = p2 ++ pat ++ s2 →
      pre.length ≤ p2.length) :
    replaceFirstAux pat (pre ++ pat ++ suf) = pre ++ suf := by
  induction pre with
  | nil => simpa using replaceFirstAux_of_head pat suf
  | cons c cp ih =>
    have hnp : ¬ pat.isPrefixOf (c :: (cp ++ pat ++ suf)) = true := by
      rw [isPrefixOf_iff_exists]
      rintro ⟨t, ht⟩
      have heq : c :: cp ++ pat ++ suf = [] ++ pat ++ t := by
        rw [List.nil_append, ht]
        simp [List.append_assoc]
      have hle := hfirst [] t heq
      simp at hle
    show replaceFirstAux pat (c :: (cp ++ pat ++ suf)) = c :: (cp ++ suf)
    simp only [replaceFirstAux, if_neg hnp]
    congr 1
    apply ih
    intro p2 s2 h2
    have := hfirst (c :: p2) s2 (by simpa using h2)
    simpa using this

/-- `jsReplaceOnce` satisfies the first-occurrence-removal specification. -/
theorem jsReplaceOnce_spec (pat s : String) :
    RemovesFirstOccurrence pat s (jsReplaceOnce s pat) := by
  constructor
  · intro h
    show String.mk (replaceFirstAux pat.data s.data) = s
    rw [replaceFirstAux_no_occurrence pat.data s.data h]
  · intro pre suf hdecomp hfirst
    show (String.mk (replaceFirstAux pat.data s.data)).data = pre ++ suf
    have h1 : ∀ p2 s2 : List Char,
        pre ++ pat.data ++ suf = p2 ++ pat.data ++ s2 →
        pre.length ≤ p2.length :=
      fun p2 s2 h2 => hfirst p2 s2 (hdecomp.trans h2)
    rw [show (String.mk (replaceFirstAux pat.data s.data)).data
        = replaceFirstAux pat.data s.data from rfl, hdecomp]
    exact replaceFirstAux_first_occurrence pat.data pre suf h1

/-- Removing the decoration from a decorated key restores the key: the first
occurrence of `p` in `p ++ k` starts at position zero. -/
theorem jsReplaceOnce_prepend (p k : String) : jsReplaceOnce (p ++ k) p = k := by
  show String.mk (replaceFirstAux p.data (p ++ k).data) = k
  rw [String.data_append, replaceFirstAux_of_head]

/-! ## Lemmas: the claims builder -/

/-- The three base entries of the permission-variables object. -/
def baseEntries (reg : RegistrationConfig) (a : AccountData) (jwt : Bool) :
    Claims :=
  [(gpPre jwt ++ "user-id", ClaimValue.str a.user.id),
   (gpPre jwt ++ "allowed-roles", ClaimValue.strArr (allowedRoles reg a)),
   (gpPre jwt ++ "default-role", ClaimValue.str (effectiveRole reg a))]

/-- The entries the reduce over `CUSTOM_FIELDS` assigns, in configured
order. -/
def customEntries (cfg : JwtConfig) (a : AccountData) (jwt : Bool) : Claims :=
  cfg.CUSTOM_FIELDS.map
    (fun c => (gpPre jwt ++ kebabCase c, customFieldValue a.user c))

theorem gp_eq_spreadForm (cfg : JwtConfig) (reg : RegistrationConfig)
    (a : AccountData) (jwt : Bool) :
    generatePermissionVariables cfg reg a jwt
      = jsSpread (baseEntries reg a jwt)
          (jsSpread [] (customEntries cfg a jwt)) := by
  rw [generatePermissionVariables]
  congr 1
  exact foldl_insert_eq_jsSpread cfg.CUSTOM_FIELDS _ _ []

theorem gp_prefixed (cfg : JwtConfig) (reg : RegistrationConfig)
    (a : AccountData) :
    generatePermissionVariables cfg reg a true =
      mapKeys (fun k => "x-hasura-" ++ k)
        (generatePermissionVariables cfg reg a false) := by
  have hce : customEntries cfg a true
      = mapKeys (fun k => "x-hasura-" ++ k) (customEntries cfg a false) := by
    rw [customEntries, customEntries, mapKeys, List.map_map]
    rfl
  rw [gp_eq_spreadForm, gp_eq_spreadForm, hce,
    ← jsSpread_mapKeys _ (prepend_injective "x-hasura-"),
    ← jsSpread_mapKeys _ (prepend_injective "x-hasura-")]
  rfl

theorem nodupKeys_gp (cfg : JwtConfig) (reg : RegistrationConfig)
    (a : AccountData) (jwt : Bool) :
    NodupKeys (generatePermissionVariables cfg reg a jwt) := by
  rw [gp_eq_spreadForm]
  apply nodupKeys_jsSpread
  have hc : ∀ x y : String, x ≠ y → gpPre jwt ++ x ≠ gpPre jwt ++ y :=
    fun x y hxy hcx => hxy (string_append_left_cancel hcx)
  rw [NodupKeys]
  simp only [baseEntries, List.map_cons, List.map_nil]
  rw [List.nodup_cons, List.nodup_cons]
  refine ⟨?_, ?_, List.nodup_singleton _⟩
  · simp only [List.mem_cons, List.mem_singleton, List.not_mem_nil]
    push_neg
    refine ⟨hc _ _ (by decide), hc _ _ (by decide), ?_⟩
    simp
  · simp only [List.mem_cons, List.not_mem_nil]
    push_neg
    refine ⟨hc _ _ (by decide), ?_⟩
    simp

/-- Stripping the decoration from every key of a decorated object with unique
keys restores the object. -/
theorem gpfc_strips (m : Claims) (h : NodupKeys m) :
    getPermissionVariablesFromClaims
      (mapKeys (fun k => "x-hasura-" ++ k) m) = m := by
  have h2 : (mapKeys (fun k : String => "x-hasura-" ++ k) m).map
      (fun kv => (jsReplaceOnce kv.1 "x-hasura-", kv.2)) = m := by
    rw [mapKeys, List.map_map]
    have hfun : ((fun kv : String × ClaimValue =>
        (jsReplaceOnce kv.1 "x-hasura-", kv.2)) ∘
        (fun kv : String × ClaimValue => ("x-hasura-" ++ kv.1, kv.2)))
        = fun kv => kv := by
      funext kv
      simp [Function.comp, jsReplaceOnce_prepend]
    rw [hfun]
    simp
  calc getPermissionVariablesFromClaims
        (mapKeys (fun k => "x-hasura-" ++ k) m)
      = jsSpread [] ((mapKeys (fun k => "x-hasura-" ++ k) m).map
          (fun kv => (jsReplaceOnce kv.1 "x-hasura-", kv.2))) :=
        foldl_insert_eq_jsSpread _ _ _ []
    _ = jsSpread [] m := by rw [h2]
    _ = [] ++ m := jsSpread_eq_append m [] (by simpa using h)
    _ = m := by simp

/-! ## Claim theorems -/

/-- Claim C2 (the code contradicts it): a token that verifies successfully but
whose payload has no entry at the configured claims-namespace key makes the
try-block construct the distinct missing-namespace error, yet `getClaims`
surfaces the undifferentiated invalid-token error, because the namespace check
sits inside the try block whose catch replaces every error. -/
theorem missingNamespace_swallowed :
    jwtVerify tokenNoNamespace keyA 10
      = some (decodedPayload tokenNoNamespace) ∧
    jsLookup (decodedPayload tokenNoNamespace) cfgA.CLAIMS_NAMESPACE = none ∧
    getClaimsTry cfgA keyA 10 (some tokenNoNamespace)
      = .error .missingNamespace ∧
    getClaims cfgA keyA 10 decodeA (some "Bearer token-a")
      = .error .invalidToken := by
  refine ⟨by decide, by decide, by decide, by decide⟩

/-- Claim C3, counterexample: with a readable-key-file failure and a failing
persist step, module initialization aborts with the file-system error instead
of making the freshly generated key available. -/
theorem keyInit_persistFailure_fails :
    RSA_TYPES.contains cfgGen.ALGORITHM = true ∧ cfgGen.KEY = "" ∧
    envNoWrite.fileReadOk = false ∧ envNoWrite.writeOk = false ∧
    initJwtKey cfgGen envNoWrite = .error .fsWriteError := by
  decide

/-- Claim C3, amended: in the asymmetric branch with no explicit key material
and an unreadable key file, a fresh key pair is generated and persisted; when
the persist step succeeds the generated key becomes the active key, but a
persist failure aborts initialization — the write error propagates and no key
is available. -/
theorem keyInit_generate_amended (cfg : JwtConfig) (env : KeyInitEnv)
    (halg : RSA_TYPES.contains cfg.ALGORITHM = true) (hkey : cfg.KEY = "")
    (hread : env.fileReadOk = false) :
    (env.writeOk = true →
      initJwtKey cfg env = .ok (.rsa env.generatedKeyId)) ∧
    (env.writeOk = false → initJwtKey cfg env = .error .fsWriteError) := by
  have hmem : cfg.ALGORITHM ∈ RSA_TYPES := List.elem_iff.mp halg
  constructor <;> intro hw <;> simp [initJwtKey, halg, hmem, hkey, hread, hw]

/-- Witness for the amended C3 at a concrete configuration and environment. -/
theorem keyInit_generate_amended_witness :
    (RSA_TYPES.contains cfgGen.ALGORITHM = true ∧ cfgGen.KEY = "" ∧
     envWrite.fileReadOk = false) ∧
    ((envWrite.writeOk = true →
      initJwtKey cfgGen envWrite = .ok (.rsa envWrite.generatedKeyId)) ∧
     (envWrite.writeOk = false →
      initJwtKey cfgGen envWrite = .error .fsWriteError)) :=
  ⟨⟨by decide, by decide, by decide⟩,
   keyInit_generate_amended cfgGen envWrite (by decide) (by decide) (by decide)⟩

/-- Claim C4, counterexample: when `account_roles` already lists the effective
role twice, that role appears twice — not exactly once — in the allowed-roles
value. -/
theorem allowedRoles_duplicate_counterexample :
    effectiveRole regA accountDup = "user" ∧
    accountDup.account_roles.map AccountRole.role = ["user", "user"] ∧
    (allowedRoles regA accountDup).count (effectiveRole regA accountDup)
      = 2 := by
  decide

/-- Claim C4, amended: the effective role occurs `max 1 n` times in
allowed-roles, where `n` is its number of occurrences in `account_roles`: it
is appended once at the end when absent, and when already present the list is
kept unchanged (position preserved, nothing appended), so pre-existing
duplicates survive. -/
theorem allowedRoles_count_amended (reg : RegistrationConfig)
    (a : AccountData) :
    (allowedRoles reg a).count (effectiveRole reg a)
      = max 1 ((a.account_roles.map AccountRole.role).count
          (effectiveRole reg a)) ∧
    (effectiveRole reg a ∈ a.account_roles.map AccountRole.role →
      allowedRoles reg a = a.account_roles.map AccountRole.role) ∧
    (effectiveRole reg a ∉ a.account_roles.map AccountRole.role →
      allowedRoles reg a
        = a.account_roles.map AccountRole.role ++ [effectiveRole reg a]) := by
  by_cases hmem : effectiveRole reg a ∈ a.account_roles.map AccountRole.role
  · have hcont : (a.account_roles.map AccountRole.role).contains
        (effectiveRole reg a) = true := List.elem_iff.mpr hmem
    have hall : allowedRoles reg a = a.account_roles.map AccountRole.role := by
      simp only [allowedRoles]
      rw [if_pos hcont]
    have hpos : 0 < (a.account_roles.map AccountRole.role).count
        (effectiveRole reg a) := List.count_pos_iff.mpr hmem
    refine ⟨?_, fun _ => hall, fun hn => absurd hmem hn⟩
    rw [hall, Nat.max_eq_right hpos]
  · have hcont : ¬ (a.account_roles.map AccountRole.role).contains
        (effectiveRole reg a) = true := fun hc => hmem (List.elem_iff.mp hc)
    have hall : allowedRoles reg a
        = a.account_roles.map AccountRole.role ++ [effectiveRole reg a] := by
      simp only [allowedRoles]
      rw [if_neg hcont]
    have hzero : (a.account_roles.map AccountRole.role).count
        (effectiveRole reg a) = 0 := List.count_eq_zero.mpr hmem
    refine ⟨?_, fun hm => absurd hm hmem, fun _ => hall⟩
    rw [hall, List.count_append, hzero]
    simp

/-- Witness for the amended C4 at a concrete account. -/
theorem allowedRoles_count_amended_witness :
    (allowedRoles regA accountA).count (effectiveRole regA accountA)
      = max 1 ((accountA.account_roles.map AccountRole.role).count
          (effectiveRole regA accountA)) :=
  (allowedRoles_count_amended regA accountA).1

/-- Claim C5, counterexample: a non-anonymous account with `default_role`
present but equal to the empty string resolves to the configured
default-user-role constant, not to its (present) `default_role` value. -/
theorem effectiveRole_emptyDefault_counterexample :
    accountEmptyRole.user.is_anonymous = false ∧
    accountEmptyRole.default_role = some "" ∧
    effectiveRole regA accountEmptyRole = "user" ∧
    effectiveRole regA accountEmptyRole ≠ "" := by
  decide

/-- Claim C5, amended: an anonymous user resolves to the configured
anonymous-role constant regardless of `default_role`; a non-anonymous user
resolves to `default_role` when it is present and non-empty, and to the
configured default-user-role constant when `default_role` is absent or
empty. -/
theorem effectiveRole_cases (reg : RegistrationConfig) (a : AccountData) :
    (a.user.is_anonymous = true →
      effectiveRole reg a = reg.DEFAULT_ANONYMOUS_ROLE) ∧
    (∀ r : String, a.user.is_anonymous = false → a.default_role = some r →
      r ≠ "" → effectiveRole reg a = r) ∧
    (a.user.is_anonymous = false →
      (a.default_role = none ∨ a.default_role = some "") →
      effectiveRole reg a = reg.DEFAULT_USER_ROLE) := by
  refine ⟨fun ha => ?_, fun r ha hr hne => ?_, fun ha hd => ?_⟩
  · simp [effectiveRole, ha]
  · simp [effectiveRole, ha, hr, hne]
  · rcases hd with hd | hd <;> simp [effectiveRole, ha, hd]

/-- Witness for the amended C5: an anonymous account with a `default_role`
set still resolves to the anonymous-role constant. -/
theorem effectiveRole_cases_witness :
    accountAnon.user.is_anonymous = true ∧
    effectiveRole regA accountAnon = regA.DEFAULT_ANONYMOUS_ROLE :=
  ⟨by decide, (effectiveRole_cases regA accountAnon).1 (by decide)⟩

/-- Claim C7: with no Authorization header, `getClaims` fails with the
missing-header error, before any token handling. -/
theorem getClaims_missingHeader (cfg : JwtConfig) (key : JwtKeyVal) (now : Nat)
    (decodeToken : String → Option SignedToken) :
    getClaims cfg key now decodeToken none
      = .error .missingHeader := rfl

/-- Claim C9: for a non-anonymous account whose `default_role` is present but
empty, the effective role is the configured default-user-role constant — the
empty string behaves exactly like an absent `default_role` (JS `||`
falsiness). -/
theorem effectiveRole_emptyString_default (reg : RegistrationConfig)
    (a : AccountData) (hanon : a.user.is_anonymous = false)
    (hdr : a.default_role = some "") :
    effectiveRole reg a = reg.DEFAULT_USER_ROLE ∧
    effectiveRole reg a
      = effectiveRole reg ⟨a.user, none, a.account_roles⟩ := by
  constructor <;> simp [effectiveRole, hanon, hdr]

/-- Witness for C9 at a concrete account. -/
theorem effectiveRole_emptyString_default_witness :
    (accountEmptyRole.user.is_anonymous = false ∧
     accountEmptyRole.default_role = some "") ∧
    (effectiveRole regA accountEmptyRole = regA.DEFAULT_USER_ROLE ∧
     effectiveRole regA accountEmptyRole
       = effectiveRole regA ⟨accountEmptyRole.user, none,
           accountEmptyRole.account_roles⟩) :=
  ⟨⟨by decide, by decide⟩,
   effectiveRole_emptyString_default regA accountEmptyRole
     (by decide) (by decide)⟩

/-- Claim C1: for any account under an asymmetric configuration whose claims
namespace is not one of the reserved standard claim names, signing the
token-shaped claims wrapped under the namespace, verifying the token before
its expiry, and looking up the namespace yields exactly the token-shaped
claims; stripping the `x-hasura-` decoration from each of their keys yields
the claims built with `forToken = false`. -/
theorem roundTrip_claims (cfg : JwtConfig) (reg : RegistrationConfig)
    (key : JwtKeyVal) (now verifyTime : Nat) (a : AccountData)
    (halg : RSA_TYPES.contains cfg.ALGORITHM = true)
    (hexp : verifyTime < now + cfg.EXPIRES_IN * 60)
    (hns : cfg.CLAIMS_NAMESPACE ∉ (["iat", "exp", "sub", "iss"] : List String)) :
    verifyAndExtract cfg key verifyTime
      (some (createHasuraJwt cfg reg key now a))
      = .ok (.obj (generatePermissionVariables cfg reg a true)) ∧
    getPermissionVariablesFromClaims
      (generatePermissionVariables cfg reg a true)
      = generatePermissionVariables cfg reg a false := by
  constructor
  · have hver : jwtVerify (createHasuraJwt cfg reg key now a) key verifyTime
        = some (decodedPayload (createHasuraJwt cfg reg key now a)) := by
      simp only [jwtVerify]
      rw [if_pos ⟨rfl, hexp⟩]
    have hlook : jsLookup (decodedPayload (createHasuraJwt cfg reg key now a))
        cfg.CLAIMS_NAMESPACE
        = some (.obj (generatePermissionVariables cfg reg a true)) := by
      simp only [List.mem_cons, List.not_mem_nil, or_false] at hns
      push_neg at hns
      obtain ⟨h1, h2, h3, h4⟩ := hns
      simp only [decodedPayload]
      rw [jsLookup_insert_ne _ _ _ _ h4, jsLookup_insert_ne _ _ _ _ h3,
        jsLookup_insert_ne _ _ _ _ h2, jsLookup_insert_ne _ _ _ _ h1]
      simp [createHasuraJwt, sign, jwtSign, jsLookup]
    simp [verifyAndExtract, getClaimsTry, hver, hlook, jsTruthyPayload]
  · rw [gp_prefixed]
    exact gpfc_strips _ (nodupKeys_gp cfg reg a false)

/-- Witness for C1 at a concrete account and asymmetric configuration. -/
theorem roundTrip_claims_witness :
    (RSA_TYPES.contains cfgA.ALGORITHM = true ∧
     (10 : Nat) < 0 + cfgA.EXPIRES_IN * 60 ∧
     cfgA.CLAIMS_NAMESPACE ∉ (["iat", "exp", "sub", "iss"] : List String)) ∧
    (verifyAndExtract cfgA keyA 10
       (some (createHasuraJwt cfgA regA keyA 0 accountA))
       = .ok (.obj (generatePermissionVariables cfgA regA accountA true)) ∧
     getPermissionVariablesFromClaims
       (generatePermissionVariables cfgA regA accountA true)
       = generatePermissionVariables cfgA regA accountA false) :=
  ⟨⟨by decide, by decide, by decide⟩,
   roundTrip_claims cfgA regA keyA 0 10 accountA
     (by decide) (by decide) (by decide)⟩

/-- Claim C6: a configured custom field holding a sequence is encoded through
`toPgArray` as a brace-delimited, comma-separated literal with each element
double-quoted; in particular `["a","b"]` encodes to the literal `{"a","b"}`
(braces written as their character codes here). The lookup hypothesis rules
out a second configured field colliding on the same kebab-cased key with a
different value. -/
theorem customField_pgArray (cfg : JwtConfig) (reg : RegistrationConfig)
    (a : AccountData) (jwt : Bool) (field : String) (xs : List String)
    (hmem : field ∈ cfg.CUSTOM_FIELDS)
    (hval : a.user.fields field = some (.arr xs))
    (huniq : ∀ f2 ∈ cfg.CUSTOM_FIELDS, kebabCase f2 = kebabCase field →
      a.user.fields f2 = a.user.fields field) :
    toPgArray ["a", "b"] = "\x7b\"a\",\"b\"\x7d" ∧
    jsLookup (generatePermissionVariables cfg reg a jwt)
      (gpPre jwt ++ kebabCase field) = some (.str (toPgArray xs)) := by
  refine ⟨by decide, ?_⟩
  rw [gp_eq_spreadForm, jsLookup_jsSpread]
  have hnd : NodupKeys (jsSpread ([] : Claims) (customEntries cfg a jwt)) :=
    nodupKeys_jsSpread [] _ (by simp [NodupKeys])
  rw [lastVal_of_nodup _ _ hnd, jsLookup_jsSpread]
  have hlv : lastVal (customEntries cfg a jwt) (gpPre jwt ++ kebabCase field)
      = some (.str (toPgArray xs)) := by
    apply lastVal_const
    · refine ⟨(gpPre jwt ++ kebabCase field, customFieldValue a.user field),
        ?_, rfl⟩
      exact List.mem_map_of_mem _ hmem
    · rintro ⟨k2, v2⟩ hkv hk
      simp only [customEntries, List.mem_map] at hkv
      rcases hkv with ⟨c, hc, hceq⟩
      have hk2 : gpPre jwt ++ kebabCase c = k2 :=
        congrArg Prod.fst hceq
      have hv2 : customFieldValue a.user c = v2 := congrArg Prod.snd hceq
      have hkeq : kebabCase c = kebabCase field :=
        string_append_left_cancel (hk2.trans hk)
      have hfc : a.user.fields c = a.user.fields field := huniq c hc hkeq
      rw [← hv2]
      simp [customFieldValue, hfc, hval]
  rw [hlv]
  rfl

/-- Witness for C6 at the sample account whose `colors` column holds the
sequence `["a","b"]`. -/
theorem customField_pgArray_witness :
    ("colors" ∈ cfgA.CUSTOM_FIELDS ∧
     accountA.user.fields "colors" = some (.arr ["a", "b"]) ∧
     (∀ f2 ∈ cfgA.CUSTOM_FIELDS, kebabCase f2 = kebabCase "colors" →
       accountA.user.fields f2 = accountA.user.fields "colors")) ∧
    (toPgArray ["a", "b"] = "\x7b\"a\",\"b\"\x7d" ∧
     jsLookup (generatePermissionVariables cfgA regA accountA true)
       (gpPre true ++ kebabCase "colors")
       = some (.str (toPgArray ["a", "b"]))) :=
  ⟨⟨by decide, by decide, by decide⟩,
   customField_pgArray cfgA regA accountA true "colors" ["a", "b"]
     (by decide) (by decide) (by decide)⟩

/-- Claim C8: under a symmetric algorithm `getJwkStore` fails with the
JWKS-not-implemented error, and under an asymmetric algorithm it returns the
key store holding exactly the single active key. -/
theorem getJwkStore_spec (cfg : JwtConfig) (key : JwtKeyVal) :
    (SHA_TYPES.contains cfg.ALGORITHM = true →
      getJwkStore cfg key
        = .error "JWKS is not implemented on this server.") ∧
    (RSA_TYPES.contains cfg.ALGORITHM = true →
      getJwkStore cfg key = .ok [key]) := by
  constructor
  · intro hsha
    have hm : cfg.ALGORITHM ∈ SHA_TYPES := List.elem_iff.mp hsha
    have hnot : cfg.ALGORITHM ∉ RSA_TYPES := by
      simp only [SHA_TYPES, List.mem_cons, List.not_mem_nil, or_false] at hm
      rcases hm with hx | hx | hx <;> rw [hx] <;> decide
    simp [getJwkStore, hnot]
  · intro hrsa
    simp [getJwkStore, List.elem_iff.mp hrsa]

/-- Witness for C8 at a symmetric and an asymmetric configuration. -/
theorem getJwkStore_spec_witness :
    (SHA_TYPES.contains cfgHS.ALGORITHM = true ∧
     getJwkStore cfgHS (.secret "top-secret")
       = .error "JWKS is not implemented on this server.") ∧
    (RSA_TYPES.contains cfgA.ALGORITHM = true ∧
     getJwkStore cfgA keyA = .ok [keyA]) :=
  ⟨⟨by decide, (getJwkStore_spec cfgHS (.secret "top-secret")).1 (by decide)⟩,
   ⟨by decide, (getJwkStore_spec cfgA keyA).2 (by decide)⟩⟩

/-- Claim C10: for a present non-empty Authorization header, the token handed
to verification is the header with the first occurrence of `"Bearer "`
removed, wherever that occurrence sits — and a header without the substring
passes through unchanged (the empty header is falsy in JS and fails earlier
with the missing-header error). -/
theorem getClaims_replaceOnce (cfg : JwtConfig) (key : JwtKeyVal) (now : Nat)
    (decodeToken : String → Option SignedToken) (h : String) (hne : h ≠ "") :
    getClaims cfg key now decodeToken (some h)
      = verifyAndExtract cfg key now
          (decodeToken (jsReplaceOnce h "Bearer ")) ∧
    RemovesFirstOccurrence "Bearer " h (jsReplaceOnce h "Bearer ") := by
  refine ⟨?_, jsReplaceOnce_spec "Bearer " h⟩
  simp [getClaims, hne]

/-- Witness for C10 at a concrete header. -/
theorem getClaims_replaceOnce_witness :
    ("Bearer token-a" : String) ≠ "" ∧
    (getClaims cfgA keyA 10 decodeA (some "Bearer token-a")
       = verifyAndExtract cfgA keyA 10
           (decodeA (jsReplaceOnce "Bearer token-a" "Bearer ")) ∧
     RemovesFirstOccurrence "Bearer " "Bearer token-a"
       (jsReplaceOnce "Bearer token-a" "Bearer ")) :=
  ⟨by decide,
   getClaims_replaceOnce cfgA keyA 10 decodeA "Bearer token-a" (by decide)⟩

end HBP
